import Mathlib

/-!
# Verification of the Medium recommended-articles scraper (`index.ts`)

A shallow embedding of the pure core of `src/index.ts`: URL canonicalization
(`normalizeArticleUrl`), the numeric-token parser (`toNum`), the title keyword
filters (`includesAny` / `excludesAll`), the normalize/filter/rank pipeline of
`scrapeTag`, the incremental merge (`mergeArticles`), the persisted-store
loader (`loadExistingData`) and the CLI argument parser (`parseArgs`).

Modelling conventions:
* JavaScript strings are Lean `String`s manipulated through their character
  lists (`String.toList`), so that every definition evaluates by kernel
  reduction.
* JavaScript `number | null` fields are `Option Int` (all engagement counters
  produced by the source are integers, via `Math.round`); CLI numeric values
  are `Option ℚ` with `none` playing the role of `NaN`.
* `Array.prototype.sort` with the comparator `(a, b) => (b.claps ?? 0) -
  (a.claps ?? 0)` is modelled as the stable insertion sort by the same key
  (ECMAScript mandates a stable sort, and a stable sort by a key is uniquely
  determined by the key and the input order).
* The WHATWG `URL` parser used by `normalizeArticleUrl` is modelled for
  hierarchical `scheme://authority/path?query#fragment` URLs — the form every
  article permalink takes — without percent-encoding or case normalization.
-/

namespace MediumFetcher

/-- Decimal value of a list of digit characters, most significant first
(the value of the digit string matched by a regex group). -/
def digitsVal (l : List Char) : Nat :=
  l.foldl (fun acc c => acc * 10 + (c.toNat - '0'.toNat)) 0

/-- Lower-casing on the character list, modelling
`String.prototype.toLowerCase` for the ASCII titles and keywords involved. -/
def strToLower (s : String) : String :=
  String.mk (s.toList.map Char.toLower)

/-- JavaScript `String.prototype.includes`: substring test. -/
def strIncludes (hay needle : String) : Bool :=
  decide (List.IsInfix needle.toList hay.toList)

/-- Persisted article record (`interface Article` in `index.ts`). -/
structure Article where
  url : Option String
  title : Option String
  createdAt : String
  claps : Option Int
  comments : Option Int
  tag : String
deriving DecidableEq

/-- Raw candidate extracted from the page (`interface RawArticle`). -/
structure RawArticle where
  url : Option String
  title : Option String
  datetime : Option String
  timeLabel : Option String
  claps : Option Int
  comments : Option Int
deriving DecidableEq

/-- Result of `mergeArticles` (`interface MergeResult`). -/
structure MergeResult where
  merged : List Article
  newCount : Nat
  updatedCount : Nat
deriving DecidableEq

/-- Sort key of the comparator `(a, b) => (b.claps ?? 0) - (a.claps ?? 0)`:
claps with `null` read as 0. -/
def clapsKey (a : Article) : Int :=
  a.claps.getD 0

/-- `a` may come before `b` under the claps-descending comparator. -/
def clapsDescRel (a b : Article) : Prop :=
  clapsKey b ≤ clapsKey a

instance : DecidableRel clapsDescRel := fun a b =>
  inferInstanceAs (Decidable (clapsKey b ≤ clapsKey a))

instance : IsTotal Article clapsDescRel :=
  ⟨fun a b => (le_total (clapsKey b) (clapsKey a)).imp id id⟩

instance : IsTrans Article clapsDescRel :=
  ⟨fun _ _ _ hab hbc => le_trans hbc hab⟩

/-- `.sort((a, b) => (b.claps ?? 0) - (a.claps ?? 0))`: the stable sort by
claps descending, nulls as 0. -/
def sortByClaps (l : List Article) : List Article :=
  List.insertionSort clapsDescRel l

/-- `includesAny(text, kws)` from `index.ts`: true when the keyword list is
empty or the lower-cased text contains some lower-cased keyword.  The source
passes `x.title || ""`, i.e. `""` for a null title, modelled by `getD ""`. -/
def includesAny (text : Option String) (kws : List String) : Bool :=
  if kws.isEmpty then true
  else
    kws.any (fun k => strIncludes (strToLower (text.getD "")) (strToLower k))

/-- `excludesAll(text, kws)` from `index.ts`: true when the keyword list is
empty or the lower-cased text contains none of the lower-cased keywords. -/
def excludesAll (text : Option String) (kws : List String) : Bool :=
  if kws.isEmpty then true
  else
    !(kws.any (fun k => strIncludes (strToLower (text.getD "")) (strToLower k)))

/-- The minimum-claps filter stage of `scrapeTag`:
`x.claps == null ? true : x.claps >= minClaps`. -/
def minClapsKeep (minClaps : Int) (x : Article) : Bool :=
  match x.claps with
  | none => true
  | some c => decide (minClaps ≤ c)

/-! ## URL model

`normalizeArticleUrl` delegates parsing to the WHATWG `URL` class.  We model
the parser for hierarchical URLs `scheme://authority/path?query#fragment`
(the shape of every Medium permalink): the authority (userinfo, host, port) is
kept as the opaque text between `://` and the first `/`, and no
percent-encoding or case normalization is performed. -/

/-- Components of a parsed hierarchical URL. -/
structure URLParts where
  scheme : List Char
  host : List Char
  path : List Char
  query : Option (List Char)
  fragment : Option (List Char)
deriving DecidableEq

/-- Split a character list at the first occurrence of `c`: the part before
it, and — when `c` occurs — the part after it. -/
def splitFirst (c : Char) : List Char → List Char × Option (List Char)
  | [] => ([], none)
  | a :: t =>
    if a = c then ([], some t)
    else
      let p := splitFirst c t
      (a :: p.1, p.2)

/-- Characters allowed in a URL scheme (WHATWG: ASCII alphanumeric, `+`,
`-`, `.`). -/
def isSchemeChar (c : Char) : Bool :=
  c.isAlpha || c.isDigit || c = '+' || c = '-' || c = '.'

/-- Parse a hierarchical URL into its components; `none` models a `URL`
constructor throw.  An empty path serializes as `/` (WHATWG special-scheme
behaviour). -/
def parseURL (s : List Char) : Option URLParts :=
  let h := splitFirst '#' s
  let q := splitFirst '?' h.1
  let sc := splitFirst ':' q.1
  match sc.2 with
  | none => none
  | some rest =>
    match sc.1, rest with
    | c0 :: sch, '/' :: '/' :: auth =>
      if (c0 :: sch).all isSchemeChar ∧ c0.isAlpha then
        let host := auth.takeWhile (fun c => c ≠ '/')
        let path0 := auth.dropWhile (fun c => c ≠ '/')
        let path := if path0.isEmpty then ['/'] else path0
        if host.isEmpty then none
        else some ⟨c0 :: sch, host, path, q.2, h.2⟩
      else none
    | _, _ => none

/-- Serialize URL components back to text (`URL.prototype.toString`); a
`none` query/fragment (the state after assigning `""` to `search` / `hash`)
contributes nothing. -/
def serializeURL (u : URLParts) : List Char :=
  u.scheme ++ [':', '/', '/'] ++ u.host ++ u.path ++
    (match u.query with | none => [] | some q => '?' :: q) ++
    (match u.fragment with | none => [] | some f => '#' :: f)

/-- `normalizeArticleUrl(absUrl)` from `index.ts`: `null` (and the falsy
`""`) maps to `null`; otherwise the URL is parsed, its `search` and `hash`
are cleared, and it is re-serialized; a parse failure yields `null`. -/
def normalizeArticleUrl (absUrl : Option String) : Option String :=
  match absUrl with
  | none => none
  | some s =>
    if s = "" then none
    else
      match parseURL s.toList with
      | none => none
      | some u => some (String.mk (serializeURL { u with query := none, fragment := none }))

/-! ## Numeric-token parsing (`toNum` inside `extractFromPage`) -/

/-- Characters kept by `replace(/[^\d.kKmM]/g, '')`. -/
def isNumChar (c : Char) : Bool :=
  c.isDigit || c = '.' || c = 'k' || c = 'K' || c = 'm' || c = 'M'

/-- Leftmost match of `/(\d+(?:\.\d+)?)([kKmM]?)/`: integer digits, fraction
digits (empty when the optional group does not match), and the remaining
characters (whose head, if any, is where the optional suffix is read). -/
def scanNum : List Char → Option (List Char × List Char × List Char)
  | [] => none
  | c :: t =>
    if c.isDigit then
      let ds := (c :: t).takeWhile Char.isDigit
      let r1 := (c :: t).dropWhile Char.isDigit
      match r1 with
      | '.' :: u =>
        let fs := u.takeWhile Char.isDigit
        if fs.isEmpty then some (ds, [], r1)
        else some (ds, fs, u.dropWhile Char.isDigit)
      | _ => some (ds, [], r1)
    else scanNum t

/-- `Math.round` on the non-negative rational `num / den`
(round half towards `+∞`): `⌊num / den + 1 / 2⌋`. -/
def jsRoundNat (num den : Nat) : Nat :=
  (2 * num + den) / (2 * den)

/-- `toNum(s)` from `extractFromPage`: falsy input (null or `""`) is `null`;
otherwise strip to `[\d.kKmM]`, match a leading decimal number with optional
`k`/`m` suffix, scale by 1 000 / 1 000 000, and round to nearest. -/
def toNum (s : Option String) : Option Int :=
  match s with
  | none => none
  | some str =>
    if str = "" then none
    else
      match scanNum (str.toList.filter isNumChar) with
      | none => none
      | some (ds, fs, rest) =>
        let scale : Nat :=
          match rest.head? with
          | some c =>
            if c = 'k' ∨ c = 'K' then 1000
            else if c = 'm' ∨ c = 'M' then 1000000
            else 1
          | none => 1
        let num := digitsVal ds * 10 ^ fs.length + digitsVal fs
        some (Int.ofNat (jsRoundNat (num * scale) (10 ^ fs.length)))

/-! ## The normalize/filter/rank pipeline of `scrapeTag` -/

/-- One element of the `.map` step in `scrapeTag`: canonicalize the URL,
stamp `createdAt` with the capture time (`new Date().toISOString()`, the
`now` argument) and the configured tag, and carry title and counters over.
The extracted `datetime` / `timeLabel` fields are dropped. -/
def normalizeRaw (now tag : String) (x : RawArticle) : Article :=
  { url := normalizeArticleUrl x.url
    title := x.title
    createdAt := now
    claps := x.claps
    comments := x.comments
    tag := tag }

/-- The `.map / .filter / .sort / .slice` chain of `scrapeTag`, applied to the
extracted items: normalize, drop null URLs, include filter, exclude filter,
minimum-claps filter, sort by claps descending, truncate to `limit`. -/
def normalizePipeline (now tag : String) (includeKws excludeKws : List String)
    (minClaps : Int) (limit : Nat) (items : List RawArticle) : List Article :=
  (sortByClaps
    (((((items.map (normalizeRaw now tag)).filter
        (fun x => x.url.isSome)).filter
        (fun x => includesAny x.title includeKws)).filter
        (fun x => excludesAll x.title excludeKws)).filter
        (minClapsKeep minClaps))).take limit

/-! ## The persisted store and `mergeArticles` -/

/-- The persisted monthly store: a JSON object mapping tag names to per-tag
collections (`Record<string, Article[]>`), modelled as an association list. -/
abbrev Store := List (String × List Article)

/-- `existing[tag] || []`: lookup with default empty collection. -/
def storeGet (store : Store) (tag : String) : List Article :=
  ((store.find? (fun p => decide (p.1 = tag))).map Prod.snd).getD []

/-- `existingData[tag] = merged`: replace the tag's entry, or append one. -/
def storeSet (store : Store) (tag : String) (l : List Article) : Store :=
  if store.any (fun p => decide (p.1 = tag)) then
    store.map (fun p => if p.1 = tag then (tag, l) else p)
  else store ++ [(tag, l)]

/-- `mergeArticles(existing, newArticles, tag)` from `index.ts`.  The
returned collection is `[...newArticles]` followed by every existing article
whose URL does not occur in the fresh batch, sorted by claps descending.
(The source also mutates `claps`/`comments` of existing records whose URL is
in the fresh batch, but those records are exactly the ones *not* pushed into
`merged`, and the caller immediately overwrites `existing[tag]` with
`merged`, so the mutation never reaches an observable result; the returned
value is as modelled here.)  `updatedCount` counts fresh articles whose URL
is already indexed, `newCount` the others. -/
def mergeArticles (existing : Store) (newArticles : List Article) (tag : String) :
    MergeResult :=
  let existingArticles := storeGet existing tag
  let hasUrl : Article → Bool := fun n =>
    existingArticles.any (fun a => decide (a.url = n.url))
  { merged := sortByClaps (newArticles ++ existingArticles.filter
      (fun e => !(newArticles.any (fun n => decide (n.url = e.url)))))
    newCount := newArticles.countP (fun n => !(hasUrl n))
    updatedCount := newArticles.countP hasUrl }

/-- `loadExistingData(filePath)` from `index.ts`: the file read and the JSON
parse are the two failure points of the `try` block; any failure is caught
and yields the empty store.  The read result and the JSON parser are
explicit parameters of the model. -/
def loadExistingData (readResult : Except String String)
    (parseJson : String → Except String Store) : Store :=
  match readResult with
  | Except.error _ => []
  | Except.ok content =>
    match parseJson content with
    | Except.error _ => []
    | Except.ok store => store

/-! ## CLI argument parsing (`parseArgs`) -/

/-- The parsed CLI configuration (`interface ParsedArgs`).  Numeric options
are JavaScript numbers, modelled as rationals. -/
structure ParsedArgs where
  tags : List String
  scrolls : ℚ
  minClaps : ℚ
  limit : ℚ
  includeKws : List String
  excludeKws : List String
  headless : Bool
deriving DecidableEq

/-- `String.prototype.trim`. -/
def strTrim (s : String) : String :=
  String.mk (((s.toList.dropWhile Char.isWhitespace).reverse.dropWhile
    Char.isWhitespace).reverse)

/-- Split a character list on a separator character (`String.prototype.split`
with a one-character separator: `"".split(",")` is `[""]`). -/
def splitOnChar (c : Char) : List Char → List (List Char)
  | [] => [[]]
  | a :: t =>
    if a = c then [] :: splitOnChar c t
    else
      match splitOnChar c t with
      | [] => [[a]]
      | h :: r => (a :: h) :: r

/-- `s.split(",")`. -/
def splitCommas (s : String) : List String :=
  (splitOnChar ',' s.toList).map String.mk

/-- `v.split(",").map(s => s.trim()).filter(Boolean)`. -/
def parseKwList (v : String) : List String :=
  ((splitCommas v).map strTrim).filter (fun s => decide (s ≠ ""))

/-- `Number(s)` on the plain-decimal fragment of its grammar: trimmed empty
string is 0; an optional sign, integer digits and an optional dot-fraction
parse to their value; anything else (including `NaN`-producing text) is
`none`, which models `NaN`.  The value `±(ds.fs)` is assembled with `mkRat`
so that the definition evaluates by kernel reduction. -/
def jsNumber (s : String) : Option ℚ :=
  let t := (strTrim s).toList
  if t.isEmpty then some (mkRat 0 1)
  else
    let p : Bool × List Char :=
      match t with
      | '-' :: r => (true, r)
      | '+' :: r => (false, r)
      | r => (false, r)
    let signed : Int → Int := fun n => if p.1 then -n else n
    let ds := p.2.takeWhile Char.isDigit
    let r1 := p.2.dropWhile Char.isDigit
    match r1 with
    | [] =>
      if ds.isEmpty then none
      else some (mkRat (signed (digitsVal ds)) 1)
    | '.' :: u =>
      let fs := u.takeWhile Char.isDigit
      if (u.dropWhile Char.isDigit).isEmpty ∧ ¬(ds.isEmpty ∧ fs.isEmpty) then
        some (mkRat (signed (digitsVal ds * 10 ^ fs.length + digitsVal fs)) (10 ^ fs.length))
      else none
    | _ => none

/-- JavaScript `x || d` for a number `x` (an `Option ℚ`, `none` = `NaN`):
`NaN`, `0` and `-0` are falsy and fall back to `d`. -/
def jsOr (x : Option ℚ) (d : ℚ) : ℚ :=
  match x with
  | none => d
  | some q => if q = 0 then d else q

/-- Mutable option state of the `parseArgs` loop, with its initializers
`scrolls = 6, minClaps = 0, limit = 30, include = [], exclude = [],
headless = true`. -/
structure ArgState where
  scrolls : ℚ
  minClaps : ℚ
  limit : ℚ
  includeKws : List String
  excludeKws : List String
  headless : Bool
deriving DecidableEq

/-- Initial option state of `parseArgs`. -/
def initArgState : ArgState :=
  { scrolls := 6, minClaps := 0, limit := 30
    includeKws := [], excludeKws := [], headless := true }

/-- Is the token one of the six recognized flags (the ones that make the
loop consume the following token as a value)? -/
def isFlag (a : String) : Bool :=
  a = "--scrolls" || a = "--minClaps" || a = "--limit" ||
  a = "--include" || a = "--exclude" || a = "--headless"

/-- The body of one loop iteration of `parseArgs` for the flag `a` with the
consumed value token `v` (`none` models the out-of-range `args[++i]`, for
which `?? "default"` / `|| ""` / `String(undefined)` apply). -/
def applyOpt (a : String) (v : Option String) (st : ArgState) : ArgState :=
  if a = "--scrolls" then
    { st with scrolls := jsOr (jsNumber (v.getD "6")) 6 }
  else if a = "--minClaps" then
    { st with minClaps := jsOr (jsNumber (v.getD "0")) 0 }
  else if a = "--limit" then
    { st with limit := jsOr (jsNumber (v.getD "30")) 30 }
  else if a = "--include" then
    { st with includeKws := parseKwList (v.getD "") }
  else if a = "--exclude" then
    { st with excludeKws := parseKwList (v.getD "") }
  else if a = "--headless" then
    { st with headless :=
      match v with
      | none => true
      | some s => decide (strToLower s ≠ "false") }
  else st

/-- The option loop of `parseArgs`: a recognized flag consumes the next
token (`args[++i]`) and the loop resumes after it; unrecognized tokens are
skipped. -/
def parseOpts : List String → ArgState → ArgState
  | [], st => st
  | [a], st => applyOpt a none st
  | a :: v :: rest, st =>
    if isFlag a then parseOpts rest (applyOpt a (some v) st)
    else parseOpts (v :: rest) st

/-- `parseArgs()` from `index.ts`, as a function of `process.argv.slice(2)`:
an empty argument list exits the process (modelled as `none`); otherwise the
first token is the comma-separated tag list and the rest is the option
loop. -/
def parseArgs (argv : List String) : Option ParsedArgs :=
  match argv with
  | [] => none
  | a0 :: rest =>
    let st := parseOpts rest initArgState
    some { tags := ((splitCommas a0).map strTrim).filter (fun s => decide (s ≠ ""))
           scrolls := st.scrolls, minClaps := st.minClaps, limit := st.limit
           includeKws := st.includeKws, excludeKws := st.excludeKws
           headless := st.headless }

/-- Structural facts true of every component record produced by `parseURL`. -/
def URLWF (u : URLParts) : Prop :=
  (∃ c0 sch, u.scheme = c0 :: sch ∧ c0.isAlpha = true) ∧
  (∀ c ∈ u.scheme, isSchemeChar c = true) ∧
  u.host ≠ [] ∧ (∀ c ∈ u.host, c ≠ '/' ∧ c ≠ '?' ∧ c ≠ '#') ∧
  (∃ ptl, u.path = '/' :: ptl) ∧ (∀ c ∈ u.path, c ≠ '?' ∧ c ≠ '#')

/-! ## Concrete fixtures used by counterexamples and witnesses -/

/-- Stored record used in the concrete merge scenarios. -/
def exArt : Article :=
  ⟨some "https://medium.com/p/u1", some "old title",
   "2025-09-01T00:00:00.000Z", some 1, some 1, "prog"⟩

/-- Fresh scraped record with the same URL as `exArt` but a different title,
capture time and counters. -/
def nwArt : Article :=
  ⟨some "https://medium.com/p/u1", some "new title",
   "2025-10-01T00:00:00.000Z", some 5, some 2, "prog"⟩

/-- Fresh record with URL `/p/a` and 5 claps. -/
def artA : Article :=
  ⟨some "https://medium.com/p/a", some "A", "2025-10-01T00:00:00.000Z", some 5, none, "prog"⟩

/-- Fresh record with URL `/p/b` and 5 claps (a claps tie with `artA`). -/
def artB : Article :=
  ⟨some "https://medium.com/p/b", some "B", "2025-10-01T00:00:00.000Z", some 5, none, "prog"⟩

/-- Fresh record appearing twice in a single batch. -/
def dupArt : Article :=
  ⟨some "https://medium.com/p/dup", some "dup", "2025-10-01T00:00:00.000Z", some 3, none, "prog"⟩

/-- Candidate titled "AI and Scam Alert" with 150 claps. -/
def candScam : RawArticle :=
  ⟨some "https://medium.com/p/abc1", some "AI and Scam Alert", none, none, some 150, none⟩

/-- Candidate titled "AI Breakthrough" with 50 claps. -/
def candLow : RawArticle :=
  ⟨some "https://medium.com/p/abc2", some "AI Breakthrough", none, none, some 50, none⟩

/-- Candidate titled "AI Breakthrough" with 150 claps. -/
def candKept : RawArticle :=
  ⟨some "https://medium.com/p/abc3", some "AI Breakthrough", none, none, some 150, none⟩

/-! ## Lemmas about `splitFirst`, `takeWhile` and `dropWhile` -/

lemma splitFirst_fst_mem {c : Char} {l : List Char} {x : Char}
    (hx : x ∈ (splitFirst c l).1) : x ∈ l := by
  induction l with
  | nil => simp [splitFirst] at hx
  | cons a t ih =>
    by_cases hac : a = c
    · simp [splitFirst, hac] at hx
    · simp only [splitFirst, if_neg hac] at hx
      rcases List.mem_cons.mp hx with h | h
      · exact h ▸ List.mem_cons_self a t
      · exact List.mem_cons_of_mem a (ih h)

lemma splitFirst_snd_mem {c : Char} {l r : List Char}
    (hr : (splitFirst c l).2 = some r) {x : Char} (hx : x ∈ r) : x ∈ l := by
  induction l with
  | nil => simp [splitFirst] at hr
  | cons a t ih =>
    by_cases hac : a = c
    · simp only [splitFirst, if_pos hac] at hr
      exact List.mem_cons_of_mem a ((Option.some.inj hr) ▸ hx)
    · simp only [splitFirst, if_neg hac] at hr
      exact List.mem_cons_of_mem a (ih hr)

lemma not_mem_splitFirst_fst (c : Char) (l : List Char) : c ∉ (splitFirst c l).1 := by
  induction l with
  | nil => simp [splitFirst]
  | cons a t ih =>
    by_cases hac : a = c
    · simp [splitFirst, hac]
    · simp only [splitFirst, if_neg hac]
      intro hmem
      rcases List.mem_cons.mp hmem with h | h
      · exact hac h.symm
      · exact ih h

lemma splitFirst_of_not_mem {c : Char} {l : List Char} (h : c ∉ l) :
    splitFirst c l = (l, none) := by
  induction l with
  | nil => simp [splitFirst]
  | cons a t ih =>
    have hac : ¬(a = c) := fun he => h (he ▸ List.mem_cons_self a t)
    have ht : c ∉ t := fun hm => h (List.mem_cons_of_mem a hm)
    simp [splitFirst, hac, ih ht]

lemma splitFirst_append_cons {c : Char} {l₁ : List Char} (h : c ∉ l₁) (l₂ : List Char) :
    splitFirst c (l₁ ++ c :: l₂) = (l₁, some l₂) := by
  induction l₁ with
  | nil => simp [splitFirst]
  | cons a t ih =>
    have hac : ¬(a = c) := fun he => h (he ▸ List.mem_cons_self a t)
    have ht : c ∉ t := fun hm => h (List.mem_cons_of_mem a hm)
    simp [splitFirst, hac, ih ht]

lemma takeWhile_append_eq {p : Char → Bool} {l₁ : List Char} (y : Char) (tl : List Char)
    (h₁ : ∀ x ∈ l₁, p x = true) (hy : p y = false) :
    (l₁ ++ y :: tl).takeWhile p = l₁ ∧ (l₁ ++ y :: tl).dropWhile p = y :: tl := by
  induction l₁ with
  | nil => simp [List.takeWhile, List.dropWhile, hy]
  | cons a t ih =>
    have ha : p a = true := h₁ a (List.mem_cons_self a t)
    have ht := ih (fun x hx => h₁ x (List.mem_cons_of_mem a hx))
    simp [List.takeWhile, List.dropWhile, ha, ht.1, ht.2]

lemma dropWhile_cons_head {p : Char → Bool} {l : List Char} {y : Char} {tl : List Char}
    (h : l.dropWhile p = y :: tl) : p y = false := by
  induction l with
  | nil => simp [List.dropWhile] at h
  | cons a t ih =>
    by_cases hp : p a = true
    · simp [List.dropWhile, hp] at h
      exact ih h
    · simp [List.dropWhile, Bool.of_not_eq_true hp] at h
      simp [← h.1, Bool.of_not_eq_true hp]

/-! ## Characterization of `parseURL` and the serialize/parse round trip -/

lemma isSchemeChar_ne {c : Char} (h : isSchemeChar c = true) :
    c ≠ ':' ∧ c ≠ '/' ∧ c ≠ '?' ∧ c ≠ '#' := by
  refine ⟨?_, ?_, ?_, ?_⟩ <;> · intro he; subst he; revert h; decide

lemma parseURL_wf {s : List Char} {u : URLParts} (hp : parseURL s = some u) :
    URLWF u := by
  simp only [parseURL] at hp
  split at hp
  · exact absurd hp (by simp)
  next rest hrest =>
    split at hp
    next _ c0 sch auth hsc =>
      by_cases hcond : ((c0 :: sch).all isSchemeChar = true ∧ c0.isAlpha = true)
      · rw [if_pos hcond] at hp
        by_cases hhost : (auth.takeWhile (fun c => c ≠ '/')).isEmpty = true
        · rw [if_pos hhost] at hp; exact absurd hp (by simp)
        · rw [if_neg hhost] at hp
          have hu := (Option.some.inj hp).symm
          subst hu
          -- membership chains: auth chars come from the original string with
          -- the fragment and query already split off
          have hauthmem : ∀ x ∈ auth, x ≠ '?' ∧ x ≠ '#' := by
            intro x hx
            have hx2 : x ∈ (splitFirst '?' (splitFirst '#' s).1).1 :=
              splitFirst_snd_mem hrest
                (List.mem_cons_of_mem _ (List.mem_cons_of_mem _ hx))
            have hx3 : x ∈ (splitFirst '#' s).1 := splitFirst_fst_mem hx2
            exact ⟨fun he => not_mem_splitFirst_fst '?' _ (he ▸ hx2),
                   fun he => not_mem_splitFirst_fst '#' _ (he ▸ hx3)⟩
          refine ⟨⟨c0, sch, rfl, hcond.2⟩, ?_, ?_, ?_, ?_, ?_⟩
          · show ∀ c ∈ c0 :: sch, isSchemeChar c = true
            intro c hc
            exact List.all_eq_true.mp hcond.1 c hc
          · show auth.takeWhile (fun c => decide (c ≠ '/')) ≠ []
            intro he
            exact hhost (by rw [he]; rfl)
          · show ∀ c ∈ auth.takeWhile (fun c => decide (c ≠ '/')),
              c ≠ '/' ∧ c ≠ '?' ∧ c ≠ '#'
            intro c hc
            have hcm : c ∈ auth := (List.takeWhile_sublist _).mem hc
            have hne := List.mem_takeWhile_imp hc
            exact ⟨by simpa using hne, (hauthmem c hcm).1, (hauthmem c hcm).2⟩
          · show ∃ ptl,
              (if (auth.dropWhile (fun c => decide (c ≠ '/'))).isEmpty = true then ['/']
                else auth.dropWhile (fun c => decide (c ≠ '/'))) = '/' :: ptl
            by_cases hemp : (auth.dropWhile (fun c => decide (c ≠ '/'))).isEmpty = true
            · exact ⟨[], by rw [if_pos hemp]⟩
            · rcases hd : auth.dropWhile (fun c => decide (c ≠ '/')) with _ | ⟨y, tl⟩
              · exact absurd (by rw [hd]; rfl) hemp
              · have hy' : y = '/' := by simpa using dropWhile_cons_head hd
                exact ⟨tl, by simp [hy']⟩
          · show ∀ c ∈
              (if (auth.dropWhile (fun c => decide (c ≠ '/'))).isEmpty = true then ['/']
                else auth.dropWhile (fun c => decide (c ≠ '/'))),
              c ≠ '?' ∧ c ≠ '#'
            intro c hc
            by_cases hemp : (auth.dropWhile (fun c => decide (c ≠ '/'))).isEmpty = true
            · rw [if_pos hemp] at hc
              have hc' : c = '/' := by simpa using hc
              subst hc'; exact ⟨by decide, by decide⟩
            · rw [if_neg hemp] at hc
              exact hauthmem c ((List.dropWhile_sublist _).mem hc)
      · rw [if_neg hcond] at hp; exact absurd hp (by simp)
    next h1 h2 =>
      exact absurd hp (by simp)

lemma serializeURL_stripped {u : URLParts} (hq : u.query = none) (hf : u.fragment = none) :
    serializeURL u = u.scheme ++ [':', '/', '/'] ++ u.host ++ u.path := by
  simp [serializeURL, hq, hf]

lemma serializeURL_no_query_fragment {u : URLParts} (wf : URLWF u)
    (hq : u.query = none) (hf : u.fragment = none) :
    '?' ∉ serializeURL u ∧ '#' ∉ serializeURL u := by
  obtain ⟨_, hschall, _, hhostmem, _, hpathmem⟩ := wf
  rw [serializeURL_stripped hq hf]
  constructor
  · intro hmem
    simp only [List.append_assoc, List.mem_append] at hmem
    rcases hmem with h | h | h | h
    · exact (isSchemeChar_ne (hschall _ h)).2.2.1 rfl
    · revert h; decide
    · exact (hhostmem _ h).2.1 rfl
    · exact (hpathmem _ h).1 rfl
  · intro hmem
    simp only [List.append_assoc, List.mem_append] at hmem
    rcases hmem with h | h | h | h
    · exact (isSchemeChar_ne (hschall _ h)).2.2.2 rfl
    · revert h; decide
    · exact (hhostmem _ h).2.2 rfl
    · exact (hpathmem _ h).2 rfl

lemma URLParts.eq_of_stripped {u : URLParts} (hq : u.query = none) (hf : u.fragment = none) :
    ({ scheme := u.scheme, host := u.host, path := u.path,
       query := none, fragment := none } : URLParts) = u := by
  cases u
  simp only at hq hf
  rw [hq, hf]

lemma parseURL_roundtrip {u : URLParts} (wf : URLWF u)
    (hq : u.query = none) (hf : u.fragment = none) :
    parseURL (serializeURL u) = some u := by
  obtain ⟨⟨c0, sch, hsch, halpha⟩, hschall, hhost, hhostmem, ⟨ptl, hpath⟩, hpathmem⟩ := wf
  have hnoqf := serializeURL_no_query_fragment
    ⟨⟨c0, sch, hsch, halpha⟩, hschall, hhost, hhostmem, ⟨ptl, hpath⟩, hpathmem⟩ hq hf
  have hnocolon : ':' ∉ u.scheme := fun hm => (isSchemeChar_ne (hschall _ hm)).1 rfl
  have hser2 : serializeURL u = u.scheme ++ ':' :: ('/' :: '/' :: (u.host ++ u.path)) := by
    rw [serializeURL_stripped hq hf]; simp
  have e1 : splitFirst '#' (serializeURL u) = (serializeURL u, none) :=
    splitFirst_of_not_mem hnoqf.2
  have e2 : splitFirst '?' (serializeURL u) = (serializeURL u, none) :=
    splitFirst_of_not_mem hnoqf.1
  have e3 : splitFirst ':' (serializeURL u) =
      (u.scheme, some ('/' :: '/' :: (u.host ++ u.path))) := by
    rw [hser2]; exact splitFirst_append_cons hnocolon _
  have hsplit := takeWhile_append_eq (p := fun c => decide (c ≠ '/')) '/' ptl
    (fun x hx => by simpa using (hhostmem x hx).1) (by decide)
  have e5 : (u.host ++ u.path).takeWhile (fun c => decide (c ≠ '/')) = u.host := by
    rw [hpath]; exact hsplit.1
  have e6 : (u.host ++ u.path).dropWhile (fun c => decide (c ≠ '/')) = u.path := by
    rw [hpath]; exact hsplit.2
  have hhostE : u.host.isEmpty = false := by
    rcases hU : u.host with _ | ⟨a, t⟩
    · exact absurd hU hhost
    · rfl
  have hpathE : u.path.isEmpty = false := by rw [hpath]; rfl
  simp only [parseURL, e1, e2, e3, hsch]
  rw [if_pos ⟨by rw [← hsch]; exact List.all_eq_true.mpr hschall, halpha⟩]
  rw [e5, e6, hhostE, hpathE]
  simp only [Bool.false_eq_true, if_false, ← hsch]
  exact congrArg some (URLParts.eq_of_stripped hq hf)

lemma normalizeArticleUrl_some {s out : String}
    (h : normalizeArticleUrl (some s) = some out) :
    ∃ u : URLParts, URLWF u ∧ u.query = none ∧ u.fragment = none ∧
      out.toList = serializeURL u := by
  simp only [normalizeArticleUrl] at h
  by_cases hs : s = ""
  · rw [if_pos hs] at h; exact absurd h (by simp)
  · rw [if_neg hs] at h
    rcases hp : parseURL s.toList with _ | u
    · rw [hp] at h; exact absurd h (by simp)
    · rw [hp] at h
      have hout := Option.some.inj h
      have wf := parseURL_wf hp
      refine ⟨{ u with query := none, fragment := none }, ?_, rfl, rfl, ?_⟩
      · exact ⟨wf.1, wf.2.1, wf.2.2.1, wf.2.2.2.1, wf.2.2.2.2.1, wf.2.2.2.2.2⟩
      · exact congrArg String.toList hout.symm

/-! ## Lemmas about the store and `mergeArticles` -/

lemma mergeArticles_merged_perm (existing : Store) (newArticles : List Article)
    (tag : String) :
    (mergeArticles existing newArticles tag).merged.Perm
      (newArticles ++ (storeGet existing tag).filter
        (fun e => !(newArticles.any (fun n => decide (n.url = e.url))))) := by
  simp only [mergeArticles, sortByClaps]
  exact List.perm_insertionSort _ _

lemma find?_map_replaceTag (store : Store) (tag : String) (l : List Article) :
    (store.map (fun p => if p.1 = tag then (tag, l) else p)).find?
        (fun p => decide (p.1 = tag)) =
      if store.any (fun p => decide (p.1 = tag)) then some (tag, l) else none := by
  induction store with
  | nil => rfl
  | cons hd tl ih =>
    by_cases hk : hd.1 = tag
    · simp [hk, List.find?, List.any_cons]
    · simp only [List.map_cons, if_neg hk, List.find?, decide_eq_false hk,
        List.any_cons, Bool.false_or]
      exact ih

lemma find?_append_tag (store : Store) (tag : String) (l : List Article)
    (h : store.any (fun p => decide (p.1 = tag)) = false) :
    (store ++ [(tag, l)]).find? (fun p => decide (p.1 = tag)) = some (tag, l) := by
  induction store with
  | nil => simp [List.find?]
  | cons hd tl ih =>
    simp only [List.any_cons, Bool.or_eq_false_iff, decide_eq_false_iff_not] at h
    simp only [List.cons_append, List.find?]
    rw [decide_eq_false h.1]
    exact ih h.2

lemma storeGet_storeSet (store : Store) (tag : String) (l : List Article) :
    storeGet (storeSet store tag l) tag = l := by
  unfold storeSet
  by_cases hany : store.any (fun p => decide (p.1 = tag)) = true
  · rw [if_pos hany]
    unfold storeGet
    rw [find?_map_replaceTag, if_pos hany]
    rfl
  · rw [if_neg hany]
    unfold storeGet
    rw [find?_append_tag store tag l (Bool.of_not_eq_true hany)]
    rfl

/-! ## Lemmas about `scanNum` and the argument loop -/

lemma scanNum_of_no_digit {l : List Char} (h : ∀ c ∈ l, ¬(c.isDigit = true)) :
    scanNum l = none := by
  induction l with
  | nil => rfl
  | cons a t ih =>
    have ha : a.isDigit = false := Bool.of_not_eq_true (h a (List.mem_cons_self a t))
    simp only [scanNum, ha, Bool.false_eq_true, if_false]
    exact ih fun c hc => h c (List.mem_cons_of_mem a hc)

lemma jsOr_ne_zero {x : Option ℚ} {d : ℚ} (hd : d ≠ 0) : jsOr x d ≠ 0 := by
  cases x with
  | none => exact hd
  | some q =>
    simp only [jsOr]
    split
    · exact hd
    · next hq => exact hq

lemma applyOpt_limit_ne_zero (a : String) (v : Option String) {st : ArgState}
    (h : st.limit ≠ 0) : (applyOpt a v st).limit ≠ 0 := by
  simp only [applyOpt]
  split_ifs <;> first
    | exact h
    | exact jsOr_ne_zero (by norm_num)

lemma parseOpts_limit_ne_zero : ∀ (l : List String) (st : ArgState),
    st.limit ≠ 0 → (parseOpts l st).limit ≠ 0
  | [], _, h => h
  | [a], _, h => applyOpt_limit_ne_zero a none h
  | a :: v :: rest, st, h => by
    simp only [parseOpts]
    split
    · exact parseOpts_limit_ne_zero rest _ (applyOpt_limit_ne_zero a (some v) h)
    · exact parseOpts_limit_ne_zero (v :: rest) st h

/-! ## Claim theorems -/

/-- C1, counterexample: in the collection returned by `mergeArticles` for a
URL shared between the stored record `exArt` and the fresh record `nwArt`,
the record does NOT keep the pre-merge existing title and `createdAt`: the
fresh record replaces the existing one wholesale. -/
theorem mergeArticles_title_counterexample :
    ¬ (∀ a ∈ (mergeArticles [("prog", [exArt])] [nwArt] "prog").merged,
        a.url = nwArt.url →
        a.claps = nwArt.claps ∧ a.comments = nwArt.comments ∧
        a.title = exArt.title ∧ a.createdAt = exArt.createdAt) := by
  decide

/-- C1, amended: every fresh article appears in the merged collection, and
every merged record whose URL occurs in the fresh batch is one of the fresh
records — so for a URL shared between an existing and a fresh record, the
merged record's `claps` and `comments` (and also its `title` and
`createdAt`) are the fresh record's values; the in-place counter update of
the existing record never reaches the returned collection. -/
theorem mergeArticles_fresh_record_wins :
    ∀ (store : Store) (tag : String) (fresh : List Article),
      (∀ n ∈ fresh, n ∈ (mergeArticles store fresh tag).merged) ∧
      (∀ a ∈ (mergeArticles store fresh tag).merged,
        (∃ n ∈ fresh, n.url = a.url) → a ∈ fresh) := by
  intro store tag fresh
  have hperm := mergeArticles_merged_perm store fresh tag
  constructor
  · intro n hn
    exact hperm.mem_iff.mpr (List.mem_append_left _ hn)
  · rintro a ha ⟨n, hn, hnu⟩
    rcases List.mem_append.mp (hperm.mem_iff.mp ha) with h | h
    · exact h
    · exfalso
      rcases List.mem_filter.mp h with ⟨_, hpe⟩
      have hall : ∀ m ∈ fresh, ¬(m.url = a.url) := by simpa using hpe
      exact hall n hn hnu

/-- C1, witness: the amended theorem applied to the concrete shared-URL
scenario of the counterexample. -/
theorem mergeArticles_fresh_record_wins_witness :
    nwArt ∈ (mergeArticles [("prog", [exArt])] [nwArt] "prog").merged :=
  (mergeArticles_fresh_record_wins [("prog", [exArt])] "prog" [nwArt]).1 nwArt
    (by decide)

/-- C2, counterexample: a fresh batch containing the same URL twice survives
the merge, so the merged collection is not always duplicate-free. -/
theorem mergeArticles_dup_url_counterexample :
    ¬ (List.Sorted clapsDescRel (mergeArticles [] [dupArt, dupArt] "prog").merged ∧
       ((mergeArticles [] [dupArt, dupArt] "prog").merged.map Article.url).Nodup) := by
  decide

/-- C2, amended: the merged collection is always sorted by claps descending
(null as 0); it has no two articles with the same URL provided the fresh
batch and the stored per-tag collection are each duplicate-free by URL. -/
theorem mergeArticles_sorted_and_nodup :
    ∀ (store : Store) (tag : String) (fresh : List Article),
      List.Sorted clapsDescRel (mergeArticles store fresh tag).merged ∧
      ((fresh.map Article.url).Nodup → ((storeGet store tag).map Article.url).Nodup →
        ((mergeArticles store fresh tag).merged.map Article.url).Nodup) := by
  intro store tag fresh
  constructor
  · simp only [mergeArticles, sortByClaps]
    exact List.sorted_insertionSort _ _
  · intro hf he
    have hperm := (mergeArticles_merged_perm store fresh tag).map Article.url
    refine List.Nodup.perm ?_ hperm.symm
    rw [List.map_append, List.nodup_append]
    refine ⟨hf, ?_, ?_⟩
    · exact List.Nodup.sublist ((List.filter_sublist _).map _) he
    · intro u hu1 hu2
      rcases List.mem_map.mp hu1 with ⟨n, hn, hnu⟩
      rcases List.mem_map.mp hu2 with ⟨e, hefil, heu⟩
      rcases List.mem_filter.mp hefil with ⟨_, hpe⟩
      have hall : ∀ m ∈ fresh, ¬(m.url = e.url) := by simpa using hpe
      exact hall n hn (by rw [hnu, heu])

/-- C2, witness: sortedness and URL-uniqueness of a concrete merge of a
duplicate-free batch into a duplicate-free store. -/
theorem mergeArticles_sorted_and_nodup_witness :
    ((mergeArticles [("prog", [exArt])] [artA] "prog").merged.map Article.url).Nodup :=
  (mergeArticles_sorted_and_nodup [("prog", [exArt])] "prog" [artA]).2
    (by decide) (by decide)

/-- C3: `normalizeArticleUrl` either returns `null` or a URL of the shape
`scheme://authority+path` with no query string and no fragment. -/
theorem normalizeArticleUrl_canonical :
    ∀ s : Option String,
      normalizeArticleUrl s = none ∨
      ∃ (out : String) (scheme host path : List Char),
        normalizeArticleUrl s = some out ∧
        out.toList = scheme ++ [':', '/', '/'] ++ host ++ path ∧
        '?' ∉ out.toList ∧ '#' ∉ out.toList := by
  intro s
  rcases s with _ | str
  · exact Or.inl rfl
  · rcases h : normalizeArticleUrl (some str) with _ | out
    · exact Or.inl rfl
    · right
      obtain ⟨u, wf, hq, hf, hser⟩ := normalizeArticleUrl_some h
      refine ⟨out, u.scheme, u.host, u.path, rfl, ?_, ?_, ?_⟩
      · rw [hser]; exact serializeURL_stripped hq hf
      · rw [hser]; exact (serializeURL_no_query_fragment wf hq hf).1
      · rw [hser]; exact (serializeURL_no_query_fragment wf hq hf).2

/-- C8: URL canonicalization is idempotent — whenever `normalizeArticleUrl`
succeeds, applying it again to its own output returns that same output. -/
theorem normalizeArticleUrl_idempotent :
    ∀ s u : String, normalizeArticleUrl (some s) = some u →
      normalizeArticleUrl (some u) = some u := by
  intro s u h
  obtain ⟨p, wf, hq, hf, hser⟩ := normalizeArticleUrl_some h
  have hne : u ≠ "" := by
    intro he
    obtain ⟨⟨c0, sch, hsch, _⟩, _⟩ := wf
    have hnil : u.toList = [] := by rw [he]; rfl
    rw [hser, serializeURL_stripped hq hf, hsch] at hnil
    simp at hnil
  simp only [normalizeArticleUrl]
  rw [if_neg hne, hser, parseURL_roundtrip wf hq hf]
  show some (String.mk (serializeURL
    { scheme := p.scheme, host := p.host, path := p.path,
      query := none, fragment := none })) = some u
  rw [URLParts.eq_of_stripped hq hf, ← hser]
  rfl

/-- C8, witness: idempotence at a concrete query-carrying article URL. -/
theorem normalizeArticleUrl_idempotent_witness :
    normalizeArticleUrl (some "https://medium.com/p/abc123?source=home#frag")
        = some "https://medium.com/p/abc123" ∧
    normalizeArticleUrl (some "https://medium.com/p/abc123")
        = some "https://medium.com/p/abc123" :=
  ⟨by decide,
   normalizeArticleUrl_idempotent "https://medium.com/p/abc123?source=home#frag"
     "https://medium.com/p/abc123" (by decide)⟩

/-- C4, counterexample: with the empty store, merging the tied-claps batches
`[artA]` then `[artB]` produces a different list than merging `[artA] ++
[artB]` in one pass (the tie order flips), even though all `createdAt`
values coincide — so the two collections are not equal as stated. -/
theorem mergeArticles_batch_order_counterexample :
    (mergeArticles (storeSet [] "prog" (mergeArticles [] [artA] "prog").merged)
        [artB] "prog").merged
      ≠ (mergeArticles [] ([artA] ++ [artB]) "prog").merged := by
  decide

/-- C4, amended: for batches `A`, `B` whose URL sets are disjoint from each
other and from the stored collection, merging `A` then `B` yields the same
records as merging `A ++ B` in one pass — equality as multisets (a
permutation); the order of articles with tied claps can differ. -/
theorem mergeArticles_batch_perm :
    ∀ (store : Store) (tag : String) (A B : List Article),
      (∀ x ∈ A, ∀ y ∈ B, x.url ≠ y.url) →
      (∀ x ∈ A, ∀ e ∈ storeGet store tag, x.url ≠ e.url) →
      (∀ y ∈ B, ∀ e ∈ storeGet store tag, y.url ≠ e.url) →
      ((mergeArticles (storeSet store tag (mergeArticles store A tag).merged)
          B tag).merged).Perm
        ((mergeArticles store (A ++ B) tag).merged) := by
  intro store tag A B hAB hAE hBE
  have hEfilA : (storeGet store tag).filter
      (fun e => !(A.any (fun n => decide (n.url = e.url)))) = storeGet store tag := by
    apply List.filter_eq_self.mpr
    intro e heE
    have hA : ∀ n ∈ A, ¬(n.url = e.url) := fun n hn => hAE n hn e heE
    simpa using hA
  have hm1 : (mergeArticles store A tag).merged.Perm (A ++ storeGet store tag) := by
    have h := mergeArticles_merged_perm store A tag
    rwa [hEfilA] at h
  have hget : storeGet (storeSet store tag (mergeArticles store A tag).merged) tag
      = (mergeArticles store A tag).merged := storeGet_storeSet _ _ _
  have hseq := mergeArticles_merged_perm
    (storeSet store tag (mergeArticles store A tag).merged) B tag
  rw [hget] at hseq
  have hfAE : (A ++ storeGet store tag).filter
      (fun e => !(B.any (fun n => decide (n.url = e.url))))
      = A ++ storeGet store tag := by
    apply List.filter_eq_self.mpr
    intro e he
    rcases List.mem_append.mp he with h | h
    · have hB : ∀ n ∈ B, ¬(n.url = e.url) := fun n hn => (hAB e h n hn).symm
      simpa using hB
    · have hB : ∀ n ∈ B, ¬(n.url = e.url) := fun n hn => hBE n hn e h
      simpa using hB
  have hfil : ((mergeArticles store A tag).merged.filter
      (fun e => !(B.any (fun n => decide (n.url = e.url))))).Perm
        (A ++ storeGet store tag) := by
    have h2 := hm1.filter (fun e => !(B.any (fun n => decide (n.url = e.url))))
    rwa [hfAE] at h2
  have hEfilAB : (storeGet store tag).filter
      (fun e => !((A ++ B).any (fun n => decide (n.url = e.url))))
      = storeGet store tag := by
    apply List.filter_eq_self.mpr
    intro e heE
    have hpair : (∀ n ∈ A, ¬(n.url = e.url)) ∧ (∀ n ∈ B, ¬(n.url = e.url)) :=
      ⟨fun n hn => hAE n hn e heE, fun n hn => hBE n hn e heE⟩
    simpa using hpair
  have honep : (mergeArticles store (A ++ B) tag).merged.Perm
      ((A ++ B) ++ storeGet store tag) := by
    have h := mergeArticles_merged_perm store (A ++ B) tag
    rwa [hEfilAB] at h
  have s1 : ((mergeArticles (storeSet store tag (mergeArticles store A tag).merged)
      B tag).merged).Perm (B ++ (A ++ storeGet store tag)) :=
    hseq.trans (List.Perm.append_left B hfil)
  rw [← List.append_assoc] at s1
  have s3 : ((B ++ A) ++ storeGet store tag).Perm
      ((A ++ B) ++ storeGet store tag) :=
    List.Perm.append_right _ List.perm_append_comm
  exact (s1.trans s3).trans honep.symm

/-- C4, witness: the amended permutation statement at the concrete disjoint
batches of the counterexample. -/
theorem mergeArticles_batch_perm_witness :
    ((mergeArticles (storeSet [] "prog" (mergeArticles [] [artA] "prog").merged)
        [artB] "prog").merged).Perm
      ((mergeArticles [] ([artA] ++ [artB]) "prog").merged) :=
  mergeArticles_batch_perm [] "prog" [artA] [artB]
    (by decide) (by decide) (by decide)

/-- C5: with `includeKeywords=["ai"]`, `excludeKeywords=["scam"]`,
`minClaps=100`, the pipeline drops "AI and Scam Alert" (claps 150; exclude
wins over include) and "AI Breakthrough" (claps 50; below threshold), keeps
"AI Breakthrough" (claps 150); and the minimum-claps stage never drops an
article with null claps. -/
theorem filter_composition_spec :
    normalizePipeline "2025-10-01T00:00:00.000Z" "ai" ["ai"] ["scam"] 100 30
        [candScam, candLow, candKept]
      = [⟨some "https://medium.com/p/abc3", some "AI Breakthrough",
          "2025-10-01T00:00:00.000Z", some 150, none, "ai"⟩] ∧
    ∀ (minClaps : Int) (url title : Option String) (createdAt : String)
      (comments : Option Int) (tag : String),
      minClapsKeep minClaps ⟨url, title, createdAt, none, comments, tag⟩ = true :=
  ⟨by decide, fun _ _ _ _ _ _ => rfl⟩

/-- C6: the numeric token parser maps "1.2k" to 1200, "3M" to 3000000, "42"
to 42, the empty string and null to null, and any string without a digit
(hence without a numeric token) to null. -/
theorem toNum_spec :
    toNum (some "1.2k") = some 1200 ∧ toNum (some "3M") = some 3000000 ∧
    toNum (some "42") = some 42 ∧ toNum (some "") = none ∧ toNum none = none ∧
    ∀ s : String, (∀ c ∈ s.toList, ¬(c.isDigit = true)) → toNum (some s) = none := by
  refine ⟨by decide, by decide, by decide, by decide, rfl, ?_⟩
  intro s hs
  simp only [toNum]
  by_cases he : s = ""
  · rw [if_pos he]
  · rw [if_neg he]
    rw [scanNum_of_no_digit fun c hc => hs c (List.mem_filter.mp hc).1]

/-- C6, witness: the no-numeric-token clause at a concrete digit-free
string. -/
theorem toNum_spec_witness : toNum (some "no numeric token") = none :=
  toNum_spec.2.2.2.2.2 "no numeric token" (by decide)

/-- C7: `createdAt` of every normalized record equals the capture time `now`
passed to the normalization step, and the record is entirely independent of
the extracted `datetime` and `timeLabel` fields — no parsed time label ever
reaches the final record. -/
theorem createdAt_capture_time :
    ∀ (now tag : String) (x : RawArticle) (dt tl : Option String),
      (normalizeRaw now tag x).createdAt = now ∧
      normalizeRaw now tag { x with datetime := dt, timeLabel := tl }
        = normalizeRaw now tag x :=
  fun _ _ _ _ _ => ⟨rfl, rfl⟩

/-- C9: `loadExistingData` yields the empty store both when the file read
fails and when the JSON parse of the read content fails; neither failure
propagates. -/
theorem loadExistingData_failure_empty :
    ∀ (parseJson : String → Except String Store) (err content : String),
      loadExistingData (Except.error err) parseJson = [] ∧
      (∀ msg, parseJson content = Except.error msg →
        loadExistingData (Except.ok content) parseJson = []) := by
  intro p err content
  refine ⟨rfl, ?_⟩
  intro msg h
  simp only [loadExistingData, h]

/-- C9, witness: the malformed-JSON clause at a concrete failing parser. -/
theorem loadExistingData_failure_empty_witness :
    loadExistingData (Except.ok "not valid json")
      (fun _ => Except.error "parse error") = [] :=
  (loadExistingData_failure_empty (fun _ => Except.error "parse error")
    "read error" "not valid json").2 "parse error" rfl

/-- C10: `--limit 0` yields limit 30, `--scrolls 0` yields scrolls 6,
non-numeric values for `--scrolls` / `--minClaps` / `--limit` yield their
defaults 6 / 0 / 30, and no argument vector can produce a parsed limit of
0. -/
theorem parseArgs_numeric_fallback :
    (parseArgs ["prog", "--limit", "0"]).map ParsedArgs.limit = some 30 ∧
    (parseArgs ["prog", "--scrolls", "0"]).map ParsedArgs.scrolls = some 6 ∧
    (parseArgs ["prog", "--scrolls", "abc"]).map ParsedArgs.scrolls = some 6 ∧
    (parseArgs ["prog", "--minClaps", "abc"]).map ParsedArgs.minClaps = some 0 ∧
    (parseArgs ["prog", "--limit", "abc"]).map ParsedArgs.limit = some 30 ∧
    ∀ (argv : List String) (r : ParsedArgs), parseArgs argv = some r → r.limit ≠ 0 := by
  refine ⟨by decide, by decide, by decide, by decide, by decide, ?_⟩
  intro argv r h
  cases argv with
  | nil => exact absurd h (by simp [parseArgs])
  | cons a0 rest =>
    simp only [parseArgs] at h
    rw [← Option.some.inj h]
    exact parseOpts_limit_ne_zero rest initArgState (by decide)

/-- C10, witness: the never-zero-limit clause at a concrete argument
vector. -/
theorem parseArgs_numeric_fallback_witness :
    (⟨["prog"], 6, 0, 30, [], [], true⟩ : ParsedArgs).limit ≠ 0 :=
  parseArgs_numeric_fallback.2.2.2.2.2 ["prog"] _ (by decide)

end MediumFetcher
